import Mathlib

/-!
Verification of the `panda3d_viewer` command/response bridge and scene-group
bookkeeping against its design specification.

The development shallowly embeds the relevant Python code:

* `viewer_proxy.py` — the host-side proxy (`ViewerAppProxy.__init__`,
  `__getattr__._send`) and the worker-side dispatch loop (`run._execute`,
  the shutdown tail of `run`);
* `viewer_app.py` — the scene-group registry (`append_group`, `remove_group`,
  `move_nodes`, `append_node`, `append_mesh`);
* `viewer.py` — the facade (`Viewer.__init__`, `__exit__`, `join`, `destroy`);
* `viewer_errors.py` — the exception hierarchy.

Pure data is translated directly; the mutable scene graph becomes an explicit
state (`SceneState`) of a flat node store with fresh integer identities plus
the path registry; channel communication becomes explicit reply streams.
-/

namespace PandaViewer

/-- Python values carried through the proxy channel (simplified carrier type:
the claims only need `None` plus distinguishable sample payloads). -/
inductive RVal where
  | pynone
  | pyint (n : Int)
  | pystr (s : String)
deriving DecidableEq

/-- Exception objects the embedded code can raise.  `keyError` is Python's
built-in `KeyError` (raised by `dict.pop` / `dict[...]` on a missing key).
`viewerError` and `viewerClosedError` are declared in viewer_errors.py.
The last three constructors are the error classes the specification names
but the source never declares; they exist here only so that statements can
compare against them. -/
inductive PyError where
  | keyError (key : String)
  | viewerError (msg : String)
  | viewerClosedError (msg : String)
  | /-- Modelled from the spec: `UnknownGroupError` is named by the spec for
    `remove_group` misuse but no such class exists anywhere in the source. -/
    unknownGroupError
  | /-- Modelled from the spec: `DuplicateGroupError` is named by the spec for
    `append_group` misuse but no such class exists anywhere in the source. -/
    duplicateGroupError
  | /-- Modelled from the spec: `ViewerStartError` is named by the spec for
    startup timeouts but no such class exists anywhere in the source. -/
    viewerStartError
deriving DecidableEq

/-- A reply sent worker→host: `run._execute` sends either the dispatched
method's return value or the exception object it caught. -/
inductive Reply where
  | val (v : RVal)
  | exc (e : PyError)
deriving DecidableEq

/-- Observable outcome of one host-side blocking operation: it returns a
value, raises an exception, or never returns at all. -/
inductive CallOutcome where
  | returns (v : RVal)
  | raises (e : PyError)
  | blocksForever
deriving DecidableEq

/-- Does an outcome consist of raising a `ViewerClosedError` (of any message)?
Mirrors Python's `isinstance(err, ViewerClosedError)` on the raised object. -/
def outcomeIsViewerClosed : CallOutcome → Bool
  | .raises (.viewerClosedError _) => true
  | _ => false

/-- Does an outcome consist of raising the spec's `ViewerStartError`? -/
def outcomeIsViewerStart : CallOutcome → Bool
  | .raises .viewerStartError => true
  | _ => false

/-- Host-side view of the duplex pipe created in `ViewerAppProxy.__init__`:
`pending` is the stream of replies the worker will ever deliver from this
point on, and `workerAlive = false` means the worker process has exited.
The worker's exit is not observable through the pipe on the host side: the
host stores both connection objects on `self` (viewer_proxy.py line 22), so
an open handle to `_proc_conn` survives in the host process and `recv` on an
empty channel blocks regardless of `workerAlive`. -/
structure HostView where
  pending : List Reply
  workerAlive : Bool
deriving DecidableEq

/-- One call through `ViewerAppProxy.__getattr__._send` (viewer_proxy.py
lines 38-45): send `(name, args, kwargs)` — a no-op for a worker that will
read nothing more — then block in `self._host_conn.recv()`.  `recv` returns
the next queued reply and otherwise blocks; crucially it blocks forever even
after the worker process has exited, because `__init__` stores both pipe ends
on `self` (viewer_proxy.py line 22), so the host process retains its own open
handle to `_proc_conn` and its `recv` never observes end-of-file.  An
exception reply is re-raised (`raise reply`); any other reply is returned. -/
def hostCall (h : HostView) : CallOutcome × HostView :=
  match h.pending with
  | .exc e :: rest => (.raises e, { h with pending := rest })
  | .val v :: rest => (.returns v, { h with pending := rest })
  | [] => (.blocksForever, h)

/-- Outcomes of `n` successive proxy calls, threading the channel state. -/
def callSeq : Nat → HostView → List CallOutcome
  | 0, _ => []
  | n + 1, h =>
    let p := hostCall h
    p.1 :: callSeq n p.2

/-- The channel as `ViewerAppProxy.run` leaves it once the application loop
has ended because the user closed the window (viewer_proxy.py lines 72-80):
exactly one final `ViewerClosedError('User closed the main window')` reply is
sent, the 0.05-second drain consumes at most one host→worker message, and the
worker process exits, closing its pipe end. -/
def closedHostState : HostView :=
  { pending := [.exc (.viewerClosedError "User closed the main window")],
    workerAlive := false }

/-- A dead worker with every reply already consumed. -/
def deadHostState : HostView :=
  { pending := [], workerAlive := false }

/-- What the worker does about the initial handshake (viewer_proxy.py
lines 49-77): it sends `None` after `ViewerApp` construction succeeds, sends
the constructor's exception object if construction fails, or never sends
anything at all (for instance when `ViewerApp.__init__` blocks on a display
that never answers). -/
inductive WorkerStartBehavior where
  | replies (r : Reply)
  | neverReplies
deriving DecidableEq

/-- `ViewerAppProxy.__init__` (viewer_proxy.py lines 17-27): after spawning
the worker it executes `reply = self._host_conn.recv()` — a blocking receive
with no timeout — and then re-raises the reply if it is an exception object.
A live worker that never replies leaves the constructor blocked forever. -/
def proxyInit : WorkerStartBehavior → CallOutcome
  | .replies (.exc e) => .raises e
  | .replies (.val v) => .returns v
  | .neverReplies => .blocksForever

/-- Calls on a dead, fully-drained channel all block forever: the host's own
retained handle to `_proc_conn` keeps `recv` from ever seeing end-of-file. -/
theorem callSeq_deadHostState (n : Nat) :
    callSeq n deadHostState = List.replicate n .blocksForever := by
  induction n with
  | zero => rfl
  | succ k ih => simp [callSeq, hostCall, deadHostState, List.replicate] at ih ⊢; exact ih

/-- C2, counterexample: starting from the channel state the worker leaves
behind after the user closes the window, the first proxy call raises
`ViewerClosedError` but the second blocks forever — the worker sent its
closed-error reply exactly once before exiting, and the host's retained
handle to the worker's pipe end means `recv` never sees end-of-file.  So it
is false that every subsequent call raises the distinguished already-closed
error, and false that no call hangs. -/
theorem closed_proxy_second_call_not_closed_error :
    callSeq 2 closedHostState =
      [.raises (.viewerClosedError "User closed the main window"),
       .blocksForever]
      ∧ outcomeIsViewerClosed .blocksForever = false := by
  constructor
  · rfl
  · rfl

/-- C2, amended: after the worker has transitioned to closed, the first proxy
call raises `ViewerClosedError`, but every later call blocks forever in
`recv()` — the worker sends the closed-error reply exactly once and then
exits, and because `__init__` keeps both pipe ends on the host object, the
host never receives end-of-file; no later call raises `ViewerClosedError` or
returns at all. -/
theorem closed_proxy_call_outcomes (n : Nat) :
    callSeq (n + 1) closedHostState =
      .raises (.viewerClosedError "User closed the main window")
        :: List.replicate n .blocksForever := by
  have h1 : hostCall closedHostState =
      (.raises (.viewerClosedError "User closed the main window"), deadHostState) := rfl
  simp [callSeq, h1, callSeq_deadHostState]

/-- C3, counterexample: the handshake wait in `ViewerAppProxy.__init__` has no
timeout — with a worker that never replies the constructor blocks forever, and
with an error-typed handshake reply it re-raises that error itself, never the
spec's `ViewerStartError`. -/
theorem proxy_startup_wait_unbounded :
    proxyInit .neverReplies = .blocksForever
      ∧ proxyInit (.replies (.exc (.viewerError "No graphics pipe is available")))
          = .raises (.viewerError "No graphics pipe is available")
      ∧ outcomeIsViewerStart (proxyInit .neverReplies) = false
      ∧ outcomeIsViewerStart
          (proxyInit (.replies (.exc (.viewerError "No graphics pipe is available"))))
          = false := by
  exact ⟨rfl, rfl, rfl, rfl⟩

/-- C3, amended: both host-side waits are plain `recv()` calls with no
timeout.  Construction returns the handshake value or re-raises an exception
reply as-is, and blocks forever when the worker stays silent; a per-call wait
on a live worker that never replies likewise blocks forever.  No
`ViewerStartError` exists, and no bounded startup timeout exists. -/
theorem proxy_waits_have_no_timeout (v : RVal) (e : PyError) :
    proxyInit (.replies (.val v)) = .returns v
      ∧ proxyInit (.replies (.exc e)) = .raises e
      ∧ proxyInit .neverReplies = .blocksForever
      ∧ hostCall { pending := [], workerAlive := true } =
          (.blocksForever, { pending := [], workerAlive := true }) := by
  exact ⟨rfl, rfl, rfl, rfl⟩

/-- A command message `(name, args, kwargs)` as sent by
`__getattr__._send` and received by `run._execute`. -/
structure Msg where
  name : String
  args : List RVal
  kwargs : List (String × RVal)
deriving DecidableEq

/-- One frame of the worker's communication task `run._execute`
(viewer_proxy.py lines 56-69).  Each of at most 100 iterations polls the
pipe; an empty pipe ends the frame; a `step` command is answered with `None`
and ends the frame so the render loop can run; any other command is
dispatched — `exec` abstracts `getattr(app, name)(*args, **kwargs)` with its
`try/except` wrapped into a `Reply` — and its reply is sent.  Returns the
commands still pending and the reply stream sent so far. -/
def execFrame (exec : Msg → Reply) : Nat → List Msg → List Reply → List Msg × List Reply
  | 0, pending, sent => (pending, sent)
  | _ + 1, [], sent => ([], sent)
  | fuel + 1, m :: rest, sent =>
    if m.name = "step" then (rest, sent ++ [.val .pynone])
    else execFrame exec fuel rest (sent ++ [exec m])

/-- `app.run()` executes the communication task once per rendered frame. -/
def runFrames (exec : Msg → Reply) : Nat → List Msg → List Reply → List Reply
  | 0, _, sent => sent
  | frames + 1, pending, sent =>
    let p := execFrame exec 100 pending sent
    runFrames exec frames p.1 p.2

/-- The single reply `run._execute` produces for one command: `None` for
`step`, otherwise the dispatched result or caught exception. -/
def replyOf (exec : Msg → Reply) (m : Msg) : Reply :=
  if m.name = "step" then .val .pynone else exec m

/-- A frame consumes a positive prefix of the pending commands (when fuel and
pending work exist) and appends exactly the matching replies, in order. -/
theorem execFrame_spec (exec : Msg → Reply) :
    ∀ fuel pending sent, ∃ k, k ≤ pending.length
      ∧ (pending ≠ [] → fuel ≠ 0 → 1 ≤ k)
      ∧ execFrame exec fuel pending sent =
          (pending.drop k, sent ++ (pending.take k).map (replyOf exec)) := by
  intro fuel
  induction fuel with
  | zero =>
    intro pending sent
    exact ⟨0, Nat.zero_le _, fun _ h => absurd rfl h, by simp [execFrame]⟩
  | succ f ih =>
    intro pending sent
    match pending with
    | [] => exact ⟨0, Nat.le_refl 0, fun h _ => absurd rfl h, by simp [execFrame]⟩
    | m :: rest =>
      by_cases hstep : m.name = "step"
      · refine ⟨1, by simp, fun _ _ => Nat.le_refl 1, ?_⟩
        simp [execFrame, hstep, replyOf]
      · obtain ⟨k, hk, _, heq⟩ := ih rest (sent ++ [exec m])
        refine ⟨k + 1, by simpa using hk, fun _ _ => Nat.le_add_left 1 k, ?_⟩
        simp only [execFrame, if_neg hstep, heq, List.drop_succ_cons, List.take_succ_cons,
          List.map_cons, replyOf, List.append_assoc, List.singleton_append]

/-- Running enough frames drains the whole queue and emits the replies of all
pending commands in order. -/
theorem runFrames_spec (exec : Msg → Reply) :
    ∀ frames msgs sent, msgs.length ≤ frames →
      runFrames exec frames msgs sent = sent ++ msgs.map (replyOf exec) := by
  intro frames
  induction frames with
  | zero =>
    intro msgs sent h
    have hnil : msgs = [] := List.eq_nil_of_length_eq_zero (Nat.le_zero.mp h)
    subst hnil
    simp [runFrames]
  | succ f ih =>
    intro msgs sent h
    obtain ⟨k, hk, hpos, heq⟩ := execFrame_spec exec 100 msgs sent
    match hm : msgs with
    | [] =>
      have h0 : execFrame exec 100 ([] : List Msg) sent = ([], sent) := by
        simp [execFrame]
      simp [runFrames, h0, ih [] sent (by simp)]
    | m :: rest =>
      have hk1 : 1 ≤ k := hpos (by simp) (by omega)
      have hlen : ((m :: rest).drop k).length ≤ f := by
        simp only [List.length_drop]
        have := h
        simp only [List.length_cons] at this ⊢
        omega
      have := ih ((m :: rest).drop k) (sent ++ ((m :: rest).take k).map (replyOf exec)) hlen
      simp only [runFrames, heq, this, List.append_assoc, ← List.map_append,
        List.take_append_drop]

/-- C1: for every sequence of commands reaching the worker, the dispatch loop
produces exactly one reply per command and the replies appear in send order
(strict FIFO pairing over the single channel), for every dispatch behaviour
and any sufficient number of frames; moreover an arriving `step` command is
answered immediately with a `None` reply and ends the frame, leaving the
remaining commands for later frames. -/
theorem dispatch_loop_fifo (exec : Msg → Reply) (frames : Nat) (msgs : List Msg)
    (hframes : msgs.length ≤ frames) :
    runFrames exec frames msgs [] = msgs.map (replyOf exec)
      ∧ (∀ fuel rest sent m, m.name = "step" →
          execFrame exec (fuel + 1) (m :: rest) sent = (rest, sent ++ [.val .pynone])) := by
  constructor
  · simpa using runFrames_spec exec frames msgs [] hframes
  · intro fuel rest sent m hm
    simp [execFrame, hm]

/-- Sample dispatch behaviour: every non-step command returns the integer 7. -/
def sampleExec : Msg → Reply := fun _ => .val (.pyint 7)

/-- Sample command sequence with an interleaved `step`. -/
def sampleMsgs : List Msg :=
  [⟨"append_group", [.pystr "root"], []⟩, ⟨"step", [], []⟩, ⟨"remove_group", [.pystr "root"], []⟩]

/-- Witness for C1 at a concrete command sequence with an interleaved step. -/
theorem dispatch_loop_fifo_witness :
    sampleMsgs.length ≤ 3
      ∧ runFrames sampleExec 3 sampleMsgs [] = sampleMsgs.map (replyOf sampleExec) :=
  ⟨by decide, (dispatch_loop_fifo sampleExec 3 sampleMsgs (by decide)).1⟩

/-- Rational 3-vector (positions, scales). -/
abbrev V3 := ℚ × ℚ × ℚ

/-- Rational 4-vector (quaternions, matrix rows). -/
abbrev V4 := ℚ × ℚ × ℚ × ℚ

/-- A numpy 4x4 array, row by row. -/
abbrev Mat44 := V4 × V4 × V4 × V4

/-- Python `frame.T.flatten()` for a 4x4 array: the entries of the transpose
in row-major order, i.e. the original entries column by column. -/
def flattenTranspose (m : Mat44) : List ℚ :=
  match m with
  | ((a, b, c, d), (e, f, g, h), (i, j, k, l), (p, q, r, s)) =>
    [a, e, i, p, b, f, j, q, c, g, k, r, d, h, l, s]

/-- Python `frame[:3, 3]`: the top three entries of the last column. -/
def matCol3 (m : Mat44) : V3 :=
  match m with
  | ((_, _, _, d), (_, _, _, h), (_, _, _, l), _) => (d, h, l)

/-- Symbolic quaternion values: just enough structure to record which Panda3D
quaternion operations the code performs. -/
inductive QuatVal where
  | ident
  | lit (q : V4)
  | fromMat (entries : List ℚ)
  | yToZUpQuat
  | mul (a b : QuatVal)
deriving DecidableEq

/-- A node's local transform as last written by the code: `set_pos_quat`,
`set_mat(Mat4(*entries))`, or `set_mat(Mat4.yToZUpMat())`. -/
inductive PoseVal where
  | posQuat (pos : V3) (q : QuatVal)
  | mat (entries : List ℚ)
  | yToZUpMat
deriving DecidableEq

/-- A frame/pose argument as accepted by `move_nodes` and `append_node`:
either a numpy 4x4 array or a `(position, quaternion)` pair. -/
inductive PoseArg where
  | arr (m : Mat44)
  | pq (pos : V3) (quat : V4)
deriving DecidableEq

/-- The per-node attributes the embedded operations read or write. -/
structure NodeData where
  name : String
  scaleV : Option (List ℚ)
  pose : Option PoseVal
  cullReversed : Bool
deriving DecidableEq

/-- A scene-graph node in the flat store: a fresh integer identity, the
parent's identity (`none` for children of the scene root), and the node's
attributes. -/
structure SceneNode where
  id : Nat
  parent : Option Nat
  data : NodeData
deriving DecidableEq

/-- The scene state owned by `ViewerApp`: the node store under `_scene_root`,
a fresh-identity counter, and the `_groups` registry mapping a group path to
the identity of its root node. -/
structure SceneState where
  nodes : List SceneNode
  nextId : Nat
  groups : List (String × Nat)
deriving DecidableEq

/-- First-match association lookup: Python `d[k]` / `k in d` on a dict whose
keys are unique. -/
def lookupA {α : Type} : List (String × α) → String → Option α
  | [], _ => none
  | p :: rest, k => if p.1 = k then some p.2 else lookupA rest k

/-- Python dict assignment `d[k] = v`: replace the value in place when the
key exists, append a new binding otherwise. -/
def setAssoc {α : Type} (l : List (String × α)) (k : String) (v : α) : List (String × α) :=
  if (lookupA l k).isSome then
    l.map (fun p => if p.1 = k then (k, v) else p)
  else l ++ [(k, v)]

/-- The removal part of Python `d.pop(k)`: drop the binding for `k`. -/
def eraseKey {α : Type} (l : List (String × α)) (k : String) : List (String × α) :=
  l.filter (fun p => decide (p.1 ≠ k))

/-- Python `str.split(sep)` for a single-character separator, on the character
list: split at every occurrence, keeping empty segments, never returning an
empty list of segments. -/
def splitCharList (sep : Char) : List Char → List (List Char)
  | [] => [[]]
  | c :: cs =>
    match splitCharList sep cs with
    | [] => [[]]
    | g :: gs => if c = sep then [] :: g :: gs else (c :: g) :: gs

/-- Python `str.split(sep)` for a single-character separator. -/
def pySplit (s : String) (sep : Char) : List String :=
  (splitCharList sep s.data).map (fun cs => String.mk cs)

/-- A freshly attached node: `attach_new_node(name)` sets nothing besides the
name. -/
def blankData (n : String) : NodeData :=
  { name := n, scaleV := none, pose := none, cullReversed := false }

/-- The chain-building loop of `append_group` (viewer_app.py lines 121-123):
`root = self._scene_root; for name in root_path.split('/'): root =
root.attach_new_node(name)`.  Returns the updated store and the identity of
the last attached node. -/
def attachChain : SceneState → Option Nat → List String → SceneState × Option Nat
  | s, root, [] => (s, root)
  | s, root, n :: rest =>
    attachChain
      { s with nodes := s.nodes ++ [⟨s.nextId, root, blankData n⟩], nextId := s.nextId + 1 }
      (some s.nextId) rest

/-- `node.set_scale(Vec3(...))` on the node with identity `i`. -/
def setNodeScale (s : SceneState) (i : Nat) (sc : List ℚ) : SceneState :=
  { s with nodes := s.nodes.map (fun n =>
      if n.id = i then { n with data := { n.data with scaleV := some sc } } else n) }

/-- The unconditional tail of `append_group` (viewer_app.py lines 121-126):
attach the chain of path segments under the scene root, scale the last node,
and register it under the full path.  `pySplit` never yields an empty
segment list, so the fallback branch is unreachable. -/
def appendGroupChain (s : SceneState) (rootPath : String) (scale : ℚ) : SceneState :=
  match attachChain s none (pySplit rootPath '/') with
  | (s1, some lastId) =>
    let s2 := setNodeScale s1 lastId [scale, scale, scale]
    { s2 with groups := setAssoc s2.groups rootPath lastId }
  | (s1, none) => s1

/-- `node.find?`-style store lookup by identity. -/
def findNode (nodes : List SceneNode) (i : Nat) : Option SceneNode :=
  nodes.find? (fun n => decide (n.id = i))

/-- Identities of the ancestors of a node, walking `parent` pointers,
fuel-bounded by the store size (in a well-formed tree the ancestor chain is
shorter than the store). -/
def ancestorChain (nodes : List SceneNode) : Nat → Option Nat → List Nat
  | _, none => []
  | 0, some _ => []
  | fuel + 1, some p =>
    p :: (match findNode nodes p with
          | none => []
          | some pn => ancestorChain nodes fuel pn.parent)

/-- Does node `n` lie in the subtree rooted at the node with identity `rid`? -/
def inSubtree (nodes : List SceneNode) (rid : Nat) (n : SceneNode) : Bool :=
  decide (n.id = rid) || (ancestorChain nodes nodes.length n.parent).contains rid

/-- `NodePath.removeNode()` on the node with identity `rid`: the node and its
whole subtree are detached from the graph and freed. -/
def removeSubtree (nodes : List SceneNode) (rid : Nat) : List SceneNode :=
  nodes.filter (fun n => !(inSubtree nodes rid n))

/-- `ViewerApp.remove_group` (viewer_app.py lines 128-134):
`self._groups.pop(root_path).removeNode()` — `pop` raises `KeyError` on a
missing path, otherwise the registry binding goes away and the group's
subtree is removed. -/
def removeGroup (s : SceneState) (rootPath : String) : Except PyError SceneState :=
  match lookupA s.groups rootPath with
  | none => .error (.keyError rootPath)
  | some rid =>
    .ok { s with nodes := removeSubtree s.nodes rid,
                 groups := eraseKey s.groups rootPath }

/-- `ViewerApp.append_group` (viewer_app.py lines 108-126): remove an existing
group first when `remove_if_exists` is set, then unconditionally attach a new
chain for the path and register its last node. -/
def appendGroup (s : SceneState) (rootPath : String) (removeIfExists : Bool) (scale : ℚ) :
    Except PyError SceneState :=
  match (if removeIfExists && (lookupA s.groups rootPath).isSome
         then removeGroup s rootPath else .ok s) with
  | .error e => .error e
  | .ok s0 => .ok (appendGroupChain s0 rootPath scale)

/-- The transform `move_nodes` writes for one pose-dict entry: a numpy array
becomes `node.set_mat(Mat4(*frame.T.flatten()))`, a pair becomes
`node.set_pos_quat(Vec3(*pos), Quat(*quat))`. -/
def poseOfArg : PoseArg → PoseVal
  | .arr m => .mat (flattenTranspose m)
  | .pq p q => .posQuat p (.lit q)

/-- `ViewerApp.move_nodes` (viewer_app.py lines 149-166): look up the group
root (`KeyError` when absent), then for each direct child whose name is a key
of the dict set its local transform; other nodes are untouched and unmatched
keys are ignored. -/
def moveNodes (s : SceneState) (rootPath : String) (poses : List (String × PoseArg)) :
    Except PyError SceneState :=
  match lookupA s.groups rootPath with
  | none => .error (.keyError rootPath)
  | some rid =>
    .ok { s with nodes := s.nodes.map (fun n =>
        if n.parent = some rid then
          match lookupA poses n.data.name with
          | some fr => { n with data := { n.data with pose := some (poseOfArg fr) } }
          | none => n
        else n) }

/-- `node.get_quat()` as observable from the recorded pose. -/
def getQuat (d : NodeData) : QuatVal :=
  match d.pose with
  | none => .ident
  | some (.posQuat _ q) => q
  | some (.mat l) => .fromMat l
  | some .yToZUpMat => .yToZUpQuat

/-- The optional-frame branch of `append_node` (viewer_app.py lines 180-187):
for an array frame take the translation column and the quaternion of the
matrix, otherwise use the pair directly; then
`node.set_pos_quat(Vec3(*pos), Quat(*quat).multiply(node.get_quat()))`. -/
def applyFrame (d : NodeData) : Option PoseArg → NodeData
  | none => d
  | some fr =>
    let pos : V3 :=
      match fr with
      | .arr m => matCol3 m
      | .pq p _ => p
    let q : QuatVal :=
      match fr with
      | .arr m => .fromMat (flattenTranspose m)
      | .pq _ qv => .lit qv
    { d with pose := some (.posQuat pos (QuatVal.mul q (getQuat d))) }

/-- `ViewerApp.append_node` (viewer_app.py lines 167-187): look up the group
root (`KeyError` when absent), attach a wrapper node carrying the requested
name under it, reparent the payload node under the wrapper, and apply the
optional frame to the payload. -/
def appendNode (s : SceneState) (rootPath name : String) (payload : NodeData)
    (frame : Option PoseArg) : Except PyError SceneState :=
  match lookupA s.groups rootPath with
  | none => .error (.keyError rootPath)
  | some rid =>
    .ok { s with
          nodes := s.nodes ++
            [⟨s.nextId, some rid, blankData name⟩,
             ⟨s.nextId + 1, some s.nextId, applyFrame payload frame⟩],
          nextId := s.nextId + 2 }

/-- Python `str.lower` (character-wise). -/
def lowerStr (s : String) : String :=
  String.mk (s.data.map Char.toLower)

/-- Python `str.endswith(suffix)`. -/
def pyEndsWith (s suffix : String) : Bool :=
  suffix.data.isSuffixOf s.data

/-- The payload node `append_mesh` builds before handing it to `append_node`
(viewer_app.py lines 202-210): load the model (its loader-determined name is
opaque to the scene bookkeeping; the mesh path stands in for it), apply the
Y-up-to-Z-up matrix for `.dae` files, apply the scale when given, and reverse
the cull order exactly when `sum([s < 0 for s in scale]) % 2 != 0`. -/
def meshNodeData (meshPath : String) (scale : Option (List ℚ)) : NodeData :=
  { name := meshPath,
    scaleV := scale,
    pose := if pyEndsWith (lowerStr meshPath) ".dae" then some .yToZUpMat else none,
    cullReversed :=
      match scale with
      | some l => decide ((l.countP (fun x => decide (x < 0))) % 2 ≠ 0)
      | none => false }

/-- `ViewerApp.append_mesh` (viewer_app.py lines 189-211). -/
def appendMesh (s : SceneState) (rootPath name meshPath : String)
    (scale : Option (List ℚ)) (frame : Option PoseArg) : Except PyError SceneState :=
  appendNode s rootPath name (meshNodeData meshPath scale) frame

/-- The scene state right after `ViewerApp.__init__`: empty store, empty
registry. -/
def emptyScene : SceneState :=
  { nodes := [], nextId := 1, groups := [] }

theorem splitCharList_ne_nil (sep : Char) (cs : List Char) : splitCharList sep cs ≠ [] := by
  induction cs with
  | nil => simp [splitCharList]
  | cons c rest ih =>
    simp only [splitCharList]
    match h : splitCharList sep rest with
    | [] => exact absurd h ih
    | g :: gs =>
      by_cases hc : c = sep
      · simp [hc]
      · simp [hc]

theorem pySplit_ne_nil (s : String) (sep : Char) : pySplit s sep ≠ [] := by
  simp only [pySplit, ne_eq, List.map_eq_nil_iff]
  exact splitCharList_ne_nil sep s.data

theorem attachChain_spec :
    ∀ (names : List String) (s : SceneState) (root : Option Nat), names ≠ [] →
      ∃ fresh, attachChain s root names =
        ({ nodes := s.nodes ++ fresh, nextId := s.nextId + names.length,
           groups := s.groups }, some (s.nextId + names.length - 1)) := by
  intro names
  induction names with
  | nil => intro s root h; exact absurd rfl h
  | cons n rest ih =>
    intro s root _
    match rest with
    | [] =>
      refine ⟨[⟨s.nextId, root, blankData n⟩], ?_⟩
      simp [attachChain]
    | r :: rs =>
      obtain ⟨fresh, hrec⟩ :=
        ih { s with nodes := s.nodes ++ [⟨s.nextId, root, blankData n⟩],
                    nextId := s.nextId + 1 }
          (some s.nextId) (by simp)
      refine ⟨⟨s.nextId, root, blankData n⟩ :: fresh, ?_⟩
      have hstep : attachChain s root (n :: r :: rs) =
          attachChain { s with nodes := s.nodes ++ [⟨s.nextId, root, blankData n⟩],
                               nextId := s.nextId + 1 } (some s.nextId) (r :: rs) := rfl
      rw [hstep, hrec]
      simp only [Prod.mk.injEq, SceneState.mk.injEq, Option.some.injEq]
      refine ⟨⟨by simp, ?_, by simp⟩, ?_⟩
      · simp only [List.length_cons]
        omega
      · simp only [List.length_cons]
        omega

theorem lookupA_none_no_key {α : Type} (l : List (String × α)) (k : String)
    (h : lookupA l k = none) : ∀ x ∈ l, x.1 ≠ k := by
  induction l with
  | nil => intro x hx; simp at hx
  | cons p rest ih =>
    intro x hx
    simp only [lookupA] at h
    by_cases hp : p.1 = k
    · simp [hp] at h
    · rcases List.mem_cons.mp hx with hx1 | hx2
      · subst hx1; exact hp
      · exact ih (by simpa [hp] using h) x hx2

theorem lookupA_setAssoc_self {α : Type} (l : List (String × α)) (k : String) (v : α) :
    lookupA (setAssoc l k v) k = some v := by
  unfold setAssoc
  by_cases h : (lookupA l k).isSome
  · rw [if_pos h]
    induction l with
    | nil => simp [lookupA] at h
    | cons p rest ih =>
      by_cases hp : p.1 = k
      · simp [lookupA, hp]
      · simp only [lookupA, hp, if_false] at h
        simpa [lookupA, hp] using ih h
  · rw [if_neg h]
    have hnone : lookupA l k = none := by
      cases hl : lookupA l k with
      | none => rfl
      | some v2 => rw [hl] at h; simp at h
    clear h
    induction l with
    | nil => simp [lookupA]
    | cons p rest ih =>
      simp only [lookupA] at hnone ⊢
      by_cases hp : p.1 = k
      · simp [hp] at hnone
      · simpa [hp] using ih (by simpa [hp] using hnone)

theorem mem_setAssoc {α : Type} (l : List (String × α)) (k : String) (v : α)
    (x : String × α) (hx : x ∈ setAssoc l k v) :
    x = (k, v) ∨ (x ∈ l ∧ x.1 ≠ k) := by
  unfold setAssoc at hx
  by_cases h : (lookupA l k).isSome
  · rw [if_pos h] at hx
    obtain ⟨y, hy, hyx⟩ := List.mem_map.mp hx
    by_cases hp : y.1 = k
    · left
      rw [← hyx]
      simp [hp]
    · right
      have hxy : x = y := by rw [← hyx]; simp [hp]
      rw [hxy]
      exact ⟨hy, hp⟩
  · rw [if_neg h] at hx
    have hnone : lookupA l k = none := by
      cases hl : lookupA l k with
      | none => rfl
      | some v2 => rw [hl] at h; simp at h
    rcases List.mem_append.mp hx with h1 | h2
    · exact Or.inr ⟨h1, lookupA_none_no_key l k hnone x h1⟩
    · left; simpa using h2

theorem lookupA_eraseKey_self {α : Type} (l : List (String × α)) (k : String) :
    lookupA (eraseKey l k) k = none := by
  induction l with
  | nil => simp [eraseKey, lookupA]
  | cons p rest ih =>
    by_cases hp : p.1 = k
    · simpa [eraseKey, hp] using ih
    · simpa [eraseKey, lookupA, hp] using ih

theorem lookupA_eraseKey_other {α : Type} (l : List (String × α)) (k q : String)
    (hq : q ≠ k) : lookupA (eraseKey l k) q = lookupA l q := by
  induction l with
  | nil => simp [eraseKey, lookupA]
  | cons p rest ih =>
    by_cases hp : p.1 = k
    · have hpq : ¬(p.1 = q) := by rw [hp]; exact fun hh => hq hh.symm
      have hdrop : eraseKey (p :: rest) k = eraseKey rest k := by
        simp [eraseKey, List.filter_cons, hp]
      rw [hdrop, ih]
      simp [lookupA, hpq]
    · have hkeep : eraseKey (p :: rest) k = p :: eraseKey rest k := by
        simp [eraseKey, List.filter_cons, hp]
      rw [hkeep]
      by_cases hpq : p.1 = q
      · simp [lookupA, hpq]
      · simp [lookupA, hpq, ih]

theorem mem_eraseKey_mem {α : Type} (l : List (String × α)) (k : String)
    (x : String × α) (hx : x ∈ eraseKey l k) : x ∈ l ∧ x.1 ≠ k := by
  have := List.mem_filter.mp hx
  exact ⟨this.1, by simpa using this.2⟩

theorem mem_removeSubtree_ne (nodes : List SceneNode) (rid : Nat)
    (n : SceneNode) (hn : n ∈ removeSubtree nodes rid) : n.id ≠ rid := by
  have := List.mem_filter.mp hn
  have hfalse : inSubtree nodes rid n = false := by
    simpa using this.2
  unfold inSubtree at hfalse
  have := Bool.or_eq_false_iff.mp hfalse
  simpa using this.1

theorem mem_removeSubtree_iff (nodes : List SceneNode) (rid : Nat)
    (n : SceneNode) (hn : n ∈ nodes) :
    n ∈ removeSubtree nodes rid ↔ inSubtree nodes rid n = false := by
  unfold removeSubtree
  rw [List.mem_filter]
  constructor
  · intro h; simpa using h.2
  · intro h; exact ⟨hn, by simp [h]⟩

theorem appendGroup_ok (s : SceneState) (rootPath : String) (rie : Bool) (scale : ℚ) :
    ∃ s0, appendGroup s rootPath rie scale = .ok (appendGroupChain s0 rootPath scale)
      ∧ s0.nextId = s.nextId
      ∧ (∀ pr ∈ s0.groups, pr ∈ s.groups) := by
  by_cases h : (rie && (lookupA s.groups rootPath).isSome) = true
  · have hsome : (lookupA s.groups rootPath).isSome = true := by
      cases rie with
      | false => simp at h
      | true => simpa using h
    have hrie : rie = true := by
      cases rie with
      | false => simp at h
      | true => rfl
    obtain ⟨rid, hrid⟩ := Option.isSome_iff_exists.mp hsome
    refine ⟨⟨removeSubtree s.nodes rid, s.nextId, eraseKey s.groups rootPath⟩, ?_, rfl, ?_⟩
    · simp [appendGroup, hrie, removeGroup, hrid]
    · intro pr hpr
      exact (mem_eraseKey_mem s.groups rootPath pr hpr).1
  · refine ⟨s, ?_, rfl, fun pr hpr => hpr⟩
    simp [appendGroup, h]

theorem appendGroupChain_spec (s : SceneState) (rootPath : String) (scale : ℚ) :
    ∃ fresh lastId, lastId = s.nextId + (pySplit rootPath '/').length - 1
      ∧ s.nextId ≤ lastId
      ∧ appendGroupChain s rootPath scale =
          { nodes := (s.nodes ++ fresh).map (fun n =>
              if n.id = lastId then { n with data := { n.data with scaleV := some [scale, scale, scale] } } else n),
            nextId := s.nextId + (pySplit rootPath '/').length,
            groups := setAssoc s.groups rootPath lastId } := by
  obtain ⟨fresh, hchain⟩ := attachChain_spec (pySplit rootPath '/') s none (pySplit_ne_nil _ _)
  have hlen : 1 ≤ (pySplit rootPath '/').length :=
    List.length_pos.mpr (pySplit_ne_nil rootPath '/')
  refine ⟨fresh, s.nextId + (pySplit rootPath '/').length - 1, rfl, by omega, ?_⟩
  unfold appendGroupChain
  rw [hchain]
  simp only [setNodeScale]

theorem forall2_map_of_mem {α : Type} (R : α → α → Prop) (f : α → α) (l : List α)
    (h : ∀ a ∈ l, R a (f a)) : List.Forall₂ R l (l.map f) := by
  induction l with
  | nil => simp
  | cons a t ih =>
    exact List.Forall₂.cons (h a (List.mem_cons_self a t))
      (ih (fun b hb => h b (List.mem_cons_of_mem a hb)))

theorem map_eq_self_of_mem {α : Type} (f : α → α) (l : List α)
    (h : ∀ a ∈ l, f a = a) : l.map f = l := by
  induction l with
  | nil => rfl
  | cons a t ih =>
    simp [h a (List.mem_cons_self a t),
      ih (fun b hb => h b (List.mem_cons_of_mem a hb))]

/-- A one-group scene: the state produced by `append_group('a')` on a fresh
viewer. -/
def sceneA : SceneState :=
  { nodes := [⟨1, none, { name := "a", scaleV := some [1, 1, 1], pose := none,
                          cullReversed := false }⟩],
    nextId := 2,
    groups := [("a", 1)] }

/-- C4, counterexample: with the path `a` already registered,
`append_group('a', remove_if_exists=False)` raises nothing — it attaches a
second chain of nodes for the path and rebinds the registry entry to the new
root, so the scene graph is changed (two nodes where there was one) and no
`DuplicateGroupError` exists to be raised. -/
theorem append_existing_counterexample :
    appendGroup sceneA "a" false 1 =
      .ok { nodes := [⟨1, none, { name := "a", scaleV := some [1, 1, 1], pose := none,
                                  cullReversed := false }⟩,
                      ⟨2, none, { name := "a", scaleV := some [1, 1, 1], pose := none,
                                  cullReversed := false }⟩],
            nextId := 3,
            groups := [("a", 2)] }
      ∧ sceneA.nodes.length = 1 := by
  exact ⟨rfl, rfl⟩

/-- C4, amended: for a registered path, `append_group(P, remove_if_exists=
False)` does not raise; it keeps every existing node, attaches a fresh chain,
and rebinds the single registry entry for P to the fresh chain's last node
(whose identity is new, so the old group's root stays attached but
unregistered). -/
theorem append_existing_rebinds (s : SceneState) (rootPath : String) (scale : ℚ)
    (_hP : (lookupA s.groups rootPath).isSome = true)
    (hid : ∀ n ∈ s.nodes, n.id < s.nextId) :
    ∃ s2 rid,
      appendGroup s rootPath false scale = .ok s2
        ∧ (∀ n ∈ s.nodes, n ∈ s2.nodes)
        ∧ lookupA s2.groups rootPath = some rid
        ∧ s.nextId ≤ rid
        ∧ (∀ n ∈ s.nodes, n.id ≠ rid) := by
  obtain ⟨fresh, lastId, hlast, hle, hchain⟩ := appendGroupChain_spec s rootPath scale
  have hag : appendGroup s rootPath false scale = .ok (appendGroupChain s rootPath scale) := by
    simp [appendGroup]
  refine ⟨appendGroupChain s rootPath scale, lastId, hag, ?_, ?_, hle, ?_⟩
  · intro n hn
    have hnodes : (appendGroupChain s rootPath scale).nodes =
        (s.nodes ++ fresh).map (fun n =>
          if n.id = lastId then
            { n with data := { n.data with scaleV := some [scale, scale, scale] } }
          else n) := by
      rw [hchain]
    rw [hnodes]
    have hne : ¬(n.id = lastId) := by
      have := hid n hn
      omega
    exact List.mem_map.mpr ⟨n, List.mem_append_left _ hn, by simp [hne]⟩
  · have hg : (appendGroupChain s rootPath scale).groups =
        setAssoc s.groups rootPath lastId := by
      rw [hchain]
    rw [hg]
    exact lookupA_setAssoc_self _ _ _
  · intro n hn
    have := hid n hn
    omega

/-- Witness for the amended C4 at a concrete one-group scene. -/
theorem append_existing_rebinds_witness :
    ∃ s2 rid,
      appendGroup sceneA "a" false 1 = .ok s2
        ∧ (∀ n ∈ sceneA.nodes, n ∈ s2.nodes)
        ∧ lookupA s2.groups "a" = some rid
        ∧ sceneA.nextId ≤ rid
        ∧ (∀ n ∈ sceneA.nodes, n.id ≠ rid) :=
  append_existing_rebinds sceneA "a" 1 (by decide) (by decide)

/-- C5, counterexample: `remove_group` on an unregistered path raises Python's
`KeyError` (from `dict.pop`), not the spec's `UnknownGroupError`, which does
not exist in the source. -/
theorem remove_missing_group_counterexample :
    removeGroup emptyScene "x" = .error (.keyError "x")
      ∧ PyError.keyError "x" ≠ PyError.unknownGroupError := by
  exact ⟨rfl, by decide⟩

/-- C5, amended: `remove_group(P)` on an unregistered path fails with
`KeyError` (the registry is returned unchanged, since the error precedes any
mutation); on a registered path it removes the binding for P, preserves every
other binding, and keeps exactly the nodes outside the subtree rooted at P's
node. -/
theorem remove_group_semantics (s : SceneState) (rootPath : String) :
    (lookupA s.groups rootPath = none →
        removeGroup s rootPath = .error (.keyError rootPath))
      ∧ (∀ rid, lookupA s.groups rootPath = some rid →
          ∃ s2, removeGroup s rootPath = .ok s2
            ∧ lookupA s2.groups rootPath = none
            ∧ (∀ q, q ≠ rootPath → lookupA s2.groups q = lookupA s.groups q)
            ∧ (∀ n ∈ s.nodes, (n ∈ s2.nodes ↔ inSubtree s.nodes rid n = false))
            ∧ (∀ n ∈ s2.nodes, n.id ≠ rid)) := by
  constructor
  · intro h
    simp [removeGroup, h]
  · intro rid h
    refine ⟨⟨removeSubtree s.nodes rid, s.nextId, eraseKey s.groups rootPath⟩,
      ?_, ?_, ?_, ?_, ?_⟩
    · simp [removeGroup, h]
    · exact lookupA_eraseKey_self _ _
    · intro q hq
      exact lookupA_eraseKey_other _ _ _ hq
    · intro n hn
      exact mem_removeSubtree_iff s.nodes rid n hn
    · intro n hn
      exact mem_removeSubtree_ne _ _ _ hn

/-- Witness for the amended C5: the missing-path branch at an empty scene and
the registered-path branch at a one-group scene. -/
theorem remove_group_semantics_witness :
    removeGroup emptyScene "x" = .error (.keyError "x")
      ∧ (∃ s2, removeGroup sceneA "a" = .ok s2
          ∧ lookupA s2.groups "a" = none
          ∧ (∀ q, q ≠ "a" → lookupA s2.groups q = lookupA sceneA.groups q)
          ∧ (∀ n ∈ sceneA.nodes, (n ∈ s2.nodes ↔ inSubtree sceneA.nodes 1 n = false))
          ∧ (∀ n ∈ s2.nodes, n.id ≠ 1)) :=
  ⟨(remove_group_semantics emptyScene "x").1 rfl,
   (remove_group_semantics sceneA "a").2 1 rfl⟩

/-- C6: `append_group(P)` followed by `remove_group(P)` leaves the registry
without key P, frees the appended group's root node, and keeps no registry
reference to it — for every starting state whose registry references only
already-allocated identities. -/
theorem create_then_remove_group (s : SceneState) (rootPath : String) (scale : ℚ)
    (href : ∀ pr ∈ s.groups, pr.2 < s.nextId) :
    ∃ s1 rid s2,
      appendGroup s rootPath true scale = .ok s1
        ∧ lookupA s1.groups rootPath = some rid
        ∧ removeGroup s1 rootPath = .ok s2
        ∧ lookupA s2.groups rootPath = none
        ∧ (∀ n ∈ s2.nodes, n.id ≠ rid)
        ∧ (∀ pr ∈ s2.groups, pr.2 ≠ rid) := by
  obtain ⟨s0, hag, hnext, hgrp⟩ := appendGroup_ok s rootPath true scale
  obtain ⟨fresh, lastId, hlast, hle, hchain⟩ := appendGroupChain_spec s0 rootPath scale
  have hgs1 : (appendGroupChain s0 rootPath scale).groups =
      setAssoc s0.groups rootPath lastId := by
    rw [hchain]
  have hlook1 : lookupA (appendGroupChain s0 rootPath scale).groups rootPath = some lastId := by
    rw [hgs1]
    exact lookupA_setAssoc_self _ _ _
  have hremove : removeGroup (appendGroupChain s0 rootPath scale) rootPath =
      .ok ⟨removeSubtree (appendGroupChain s0 rootPath scale).nodes lastId,
           (appendGroupChain s0 rootPath scale).nextId,
           eraseKey (appendGroupChain s0 rootPath scale).groups rootPath⟩ := by
    simp [removeGroup, hlook1]
  refine ⟨appendGroupChain s0 rootPath scale, lastId,
    ⟨removeSubtree (appendGroupChain s0 rootPath scale).nodes lastId,
     (appendGroupChain s0 rootPath scale).nextId,
     eraseKey (appendGroupChain s0 rootPath scale).groups rootPath⟩,
    hag, hlook1, hremove, ?_, ?_, ?_⟩
  · exact lookupA_eraseKey_self _ _
  · intro n hn
    exact mem_removeSubtree_ne _ _ _ hn
  · intro pr hpr
    obtain ⟨hpr1, hprk⟩ := mem_eraseKey_mem _ _ _ hpr
    rw [hgs1] at hpr1
    rcases mem_setAssoc _ _ _ _ hpr1 with heq | ⟨hmem, hkey⟩
    · exact absurd (by rw [heq]) hprk
    · have h2 := href pr (hgrp pr hmem)
      omega

/-- Witness for C6 at a fresh viewer and a two-segment path. -/
theorem create_then_remove_group_witness :
    ∃ s1 rid s2,
      appendGroup emptyScene "body/arm" true 1 = .ok s1
        ∧ lookupA s1.groups "body/arm" = some rid
        ∧ removeGroup s1 "body/arm" = .ok s2
        ∧ lookupA s2.groups "body/arm" = none
        ∧ (∀ n ∈ s2.nodes, n.id ≠ rid)
        ∧ (∀ pr ∈ s2.groups, pr.2 ≠ rid) :=
  create_then_remove_group emptyScene "body/arm" 1 (by simp [emptyScene])

/-- C7: `move_nodes` on an existing group updates the local transform of
exactly those direct children of the group whose name is a key of the pose
dict (a matrix entry via `set_mat` of the transposed flattening, a pair entry
via `set_pos_quat`); every other node is unchanged, unmatched keys are
silently ignored, and a dict matching no child leaves the state identical. -/
theorem move_nodes_updates_children (s : SceneState) (rootPath : String)
    (poses : List (String × PoseArg)) (rid : Nat)
    (h : lookupA s.groups rootPath = some rid) :
    ∃ s2, moveNodes s rootPath poses = .ok s2
      ∧ s2.groups = s.groups
      ∧ s2.nextId = s.nextId
      ∧ List.Forall₂ (fun old new =>
          (old.parent = some rid
              ∧ ∃ fr, lookupA poses old.data.name = some fr
                ∧ new = { old with data := { old.data with pose := some (poseOfArg fr) } })
          ∨ ((old.parent ≠ some rid ∨ lookupA poses old.data.name = none) ∧ new = old))
          s.nodes s2.nodes
      ∧ ((∀ n ∈ s.nodes, n.parent = some rid → lookupA poses n.data.name = none) →
          moveNodes s rootPath poses = .ok s) := by
  refine ⟨⟨s.nodes.map (fun n =>
      if n.parent = some rid then
        match lookupA poses n.data.name with
        | some fr => { n with data := { n.data with pose := some (poseOfArg fr) } }
        | none => n
      else n), s.nextId, s.groups⟩, ?_, rfl, rfl, ?_, ?_⟩
  · simp [moveNodes, h]
  · apply forall2_map_of_mem
    intro a ha
    by_cases hp : a.parent = some rid
    · cases hl : lookupA poses a.data.name with
      | some fr =>
        left
        exact ⟨hp, fr, rfl, by simp [hp, hl]⟩
      | none =>
        right
        exact ⟨Or.inr rfl, by simp [hp, hl]⟩
    · right
      exact ⟨Or.inl hp, by simp [hp]⟩
  · intro hnone
    have hmap : s.nodes.map (fun n =>
        if n.parent = some rid then
          match lookupA poses n.data.name with
          | some fr => { n with data := { n.data with pose := some (poseOfArg fr) } }
          | none => n
        else n) = s.nodes := by
      apply map_eq_self_of_mem
      intro a ha
      by_cases hp : a.parent = some rid
      · simp [hp, hnone a ha hp]
      · simp [hp]
    simp only [moveNodes, h]
    rw [hmap]

/-- A scene with one group `g` (root identity 1) owning one child `b`. -/
def sceneChild : SceneState :=
  { nodes := [⟨1, none, blankData "g"⟩, ⟨2, some 1, blankData "b"⟩],
    nextId := 3, groups := [("g", 1)] }

/-- A pose batch addressing child `b` with a position-quaternion pair. -/
def samplePoses : List (String × PoseArg) :=
  [("b", .pq (0, 0, 0) (1, 0, 0, 0))]

/-- Witness for C7 at a concrete one-child group. -/
theorem move_nodes_updates_children_witness :
    ∃ s2, moveNodes sceneChild "g" samplePoses = .ok s2
      ∧ s2.groups = sceneChild.groups
      ∧ s2.nextId = sceneChild.nextId
      ∧ List.Forall₂ (fun old new =>
          (old.parent = some 1
              ∧ ∃ fr, lookupA samplePoses old.data.name = some fr
                ∧ new = { old with data := { old.data with pose := some (poseOfArg fr) } })
          ∨ ((old.parent ≠ some 1 ∨ lookupA samplePoses old.data.name = none) ∧ new = old))
          sceneChild.nodes s2.nodes
      ∧ ((∀ n ∈ sceneChild.nodes, n.parent = some 1 →
            lookupA samplePoses n.data.name = none) →
          moveNodes sceneChild "g" samplePoses = .ok sceneChild) :=
  move_nodes_updates_children sceneChild "g" samplePoses 1 rfl

/-- C8: `append_mesh` with a scale vector applies the reversed cull-face
attribute to the mesh node exactly when the number of strictly negative scale
components is odd. -/
theorem mesh_negative_scale_cull (s : SceneState) (rootPath name meshPath : String)
    (scale : List ℚ) (frame : Option PoseArg) (rid : Nat)
    (h : lookupA s.groups rootPath = some rid) :
    ∃ s2 w c, appendMesh s rootPath name meshPath (some scale) frame = .ok s2
      ∧ s2.nodes = s.nodes ++ [w, c]
      ∧ w.data.name = name
      ∧ (c.data.cullReversed = true ↔ (scale.countP (fun x => decide (x < 0))) % 2 = 1) := by
  refine ⟨⟨s.nodes ++ [⟨s.nextId, some rid, blankData name⟩,
           ⟨s.nextId + 1, some s.nextId, applyFrame (meshNodeData meshPath (some scale)) frame⟩],
          s.nextId + 2, s.groups⟩,
    ⟨s.nextId, some rid, blankData name⟩,
    ⟨s.nextId + 1, some s.nextId, applyFrame (meshNodeData meshPath (some scale)) frame⟩,
    ?_, rfl, rfl, ?_⟩
  · simp [appendMesh, appendNode, h]
  · show (applyFrame (meshNodeData meshPath (some scale)) frame).cullReversed = true
        ↔ (scale.countP (fun x => decide (x < 0))) % 2 = 1
    have hcull : (applyFrame (meshNodeData meshPath (some scale)) frame).cullReversed
        = decide ((scale.countP (fun x => decide (x < 0))) % 2 ≠ 0) := by
      cases frame with
      | none => rfl
      | some fr => rfl
    rw [hcull]
    simp only [decide_eq_true_eq]
    omega

/-- Witness for C8: one negative axis on a mesh added to a one-group scene. -/
theorem mesh_negative_scale_cull_witness :
    ∃ s2 w c, appendMesh sceneA "a" "m" "mesh.obj" (some [-1, 1, 1]) none = .ok s2
      ∧ s2.nodes = sceneA.nodes ++ [w, c]
      ∧ w.data.name = "m"
      ∧ (c.data.cullReversed = true ↔ (([-1, 1, 1] : List ℚ).countP (fun x => decide (x < 0))) % 2 = 1) :=
  mesh_negative_scale_cull sceneA "a" "m" "mesh.obj" [-1, 1, 1] none 1 rfl

/-- Python exception classes relevant to the facade, as classes (for
`issubclass` tests in `__exit__`). -/
inductive ExcClass where
  | exceptionCls
  | viewerErrorCls
  | viewerClosedErrorCls
  | keyErrorCls
deriving DecidableEq

/-- The ancestors of each class, the class itself first, read off the
declarations in viewer_errors.py (`ViewerError(Exception)`,
`ViewerClosedError(ViewerError)`) and Python's builtins. -/
def classAncestors : ExcClass → List ExcClass
  | .exceptionCls => [.exceptionCls]
  | .viewerErrorCls => [.viewerErrorCls, .exceptionCls]
  | .viewerClosedErrorCls => [.viewerClosedErrorCls, .viewerErrorCls, .exceptionCls]
  | .keyErrorCls => [.keyErrorCls, .exceptionCls]

/-- Python `issubclass(c, d)`. -/
def pyIssubclass (c d : ExcClass) : Bool :=
  (classAncestors c).contains d

/-- Which backend a `Viewer` drives. -/
inductive Backend where
  | proxy
  | inProcessApp
deriving DecidableEq

/-- The facade object: its stored `_window_type` and the backend chosen. -/
structure PyViewer where
  windowType : String
  backend : Backend
deriving DecidableEq

/-- `Viewer.__init__` (viewer.py lines 13-38): `onscreen` spawns the
subprocess proxy `ViewerAppProxy`, `offscreen` builds an in-process
`ViewerApp`, and any other window type raises
`ViewerError('Unknown window type: ...')` before any backend is created. -/
def viewerInit (windowType : String) : Except PyError PyViewer :=
  if windowType = "onscreen" then .ok ⟨windowType, .proxy⟩
  else if windowType = "offscreen" then .ok ⟨windowType, .inProcessApp⟩
  else .error (.viewerError ("Unknown window type: " ++ windowType))

/-- Backend calls made by `Viewer.join` (viewer.py lines 40-43): it runs the
application loop only in onscreen mode. -/
def viewerJoinCalls (windowType : String) : List String :=
  if windowType = "onscreen" then ["app.join"] else []

/-- Backend calls made by `Viewer.destroy` (viewer.py lines 50-53): it
destroys the application only in offscreen mode. -/
def viewerDestroyCalls (windowType : String) : List String :=
  if windowType = "offscreen" then ["app.destroy"] else []

/-- `Viewer.__exit__` (viewer.py lines 336-345): on a clean exit it first
joins (waiting for window close onscreen) and then destroys; on an exception
it only destroys; it returns
`exctype is not None and issubclass(exctype, ViewerClosedError)`, the
context-manager suppression flag.  The result pairs the ordered backend
calls with that flag. -/
def viewerExit (windowType : String) (exctype : Option ExcClass) : List String × Bool :=
  ((if exctype.isNone then viewerJoinCalls windowType else [])
      ++ viewerDestroyCalls windowType,
   match exctype with
   | none => false
   | some c => pyIssubclass c .viewerClosedErrorCls)

/-- C9: constructing a `Viewer` with a window type other than `onscreen` or
`offscreen` raises `ViewerError` and creates no backend at all; `onscreen`
creates the subprocess proxy and `offscreen` the in-process application. -/
theorem viewer_window_type (wt : String) :
    (wt ≠ "onscreen" → wt ≠ "offscreen" →
        viewerInit wt = .error (.viewerError ("Unknown window type: " ++ wt)))
      ∧ viewerInit "onscreen" = .ok ⟨"onscreen", .proxy⟩
      ∧ viewerInit "offscreen" = .ok ⟨"offscreen", .inProcessApp⟩ := by
  refine ⟨?_, rfl, rfl⟩
  intro h1 h2
  simp [viewerInit, h1, h2]

/-- Witness for C9 at the unknown window type `fullscreen`. -/
theorem viewer_window_type_witness :
    "fullscreen" ≠ "onscreen"
      ∧ "fullscreen" ≠ "offscreen"
      ∧ viewerInit "fullscreen" =
          .error (.viewerError ("Unknown window type: " ++ "fullscreen")) :=
  ⟨by decide, by decide,
   (viewer_window_type "fullscreen").1 (by decide) (by decide)⟩

/-- C10: as a context manager, `Viewer.__exit__` suppresses exactly
`ViewerClosedError` (the only subclass of `ViewerClosedError` in scope is
itself): with an in-flight exception it destroys without joining and
suppresses the exception iff its class is `ViewerClosedError`; with a clean
body it joins first (running the loop in onscreen mode) and then destroys,
suppressing nothing. -/
theorem viewer_context_exit (wt : String) (c : ExcClass) :
    ((viewerExit wt (some c)).2 = true ↔ c = .viewerClosedErrorCls)
      ∧ (viewerExit wt (some c)).1 = viewerDestroyCalls wt
      ∧ (viewerExit wt none).1 = viewerJoinCalls wt ++ viewerDestroyCalls wt
      ∧ (viewerExit wt none).2 = false := by
  refine ⟨?_, rfl, rfl, rfl⟩
  cases c <;> simp [viewerExit, pyIssubclass, classAncestors]

end PandaViewer
